import Mathlib

/-!
Shallow embedding of the Art Blocks royalties processor
(RoyaltiesProcessorDelivery): the sale data model, the paginated range
fetcher, the sale filters, the royalty aggregator, and the two OpenSea
marketplace importer variants, together with theorems settling the frozen
claims about them.

Conventions of the embedding:
* ethers BigNumber values are arbitrary-precision integers; they are
  modelled as Int.  Every division performed by the program has a
  nonnegative dividend and a positive divisor, where BigNumber division
  (truncation toward zero) coincides with Int division as used here.
* JavaScript arrays are Lean lists in the same order; Array.prototype.pop
  removes the last element, which is modelled by reversing once and
  taking heads.
* JavaScript Map obtained by get/set is modelled as an association list:
  set replaces the first binding of the key in place or appends a new
  binding at the end, exactly the observable insertion-order behaviour
  of Map.
* Fallible code (throw) returns Except String.
-/

namespace ABRoyalties

/-! ## Data model (types/graphQL_entities_def.ts) -/

structure T_Project where
  id : String
  name : String
  artistAddress : String
  curationStatus : String
  additionalPayee : Option String
  additionalPayeePercentage : Option Int
deriving DecidableEq, Inhabited

structure T_Contract where
  id : String
deriving DecidableEq, Inhabited

structure T_Token where
  id : String
  contract : T_Contract
  project : T_Project
deriving DecidableEq, Inhabited

structure T_SaleLookupTable where
  id : String
  token : T_Token
deriving DecidableEq, Inhabited

/-- The closed exchange tag set "OSV1" | "OSV2" | "LOOKSRARE". -/
inductive Exchange where
  | OSV1
  | OSV2
  | LOOKSRARE
deriving DecidableEq, Inhabited

/-- types/graphQL_entities_def.ts T_Sale.  The source field price is a
decimal string which the program immediately parses with BigNumber.from;
it is modelled directly as the parsed natural number.  The blockTimestamp
and fees fields are never read by the code under analysis and are
omitted. -/
structure T_Sale where
  id : String
  exchange : Exchange
  saleType : String
  blockNumber : Nat
  seller : String
  buyer : String
  paymentToken : String
  price : Nat
  isPrivate : Bool
  summaryTokensSold : String
  saleLookupTables : List T_SaleLookupTable
deriving DecidableEq, Inhabited

/-! ## JavaScript string split (used as summaryTokensSold.split("::"))

The first occurrence of the separator is located by splitFirst; jsSplit
iterates this with a fuel bound of one more than the string length (ample,
since each removed separator is non-empty here).  JavaScript split on a
string that does not contain the separator returns the one-element list
holding the whole string; in particular "".split("::") returns [""]. -/

/-- Locate the first occurrence of sep: returns the chunk before it and
the remainder after it, or none when sep does not occur. -/
def splitFirst (sep : List Char) : List Char → Option (List Char × List Char)
  | [] => none
  | c :: cs =>
    if List.isPrefixOf sep (c :: cs) then some ([], (c :: cs).drop sep.length)
    else
      match splitFirst sep cs with
      | none => none
      | some (pre, post) => some (c :: pre, post)

def jsSplitGo (sep : List Char) : Nat → List Char → List (List Char)
  | 0, s => [s]
  | fuel + 1, s =>
    match splitFirst sep s with
    | none => [s]
    | some (pre, post) => pre :: jsSplitGo sep fuel post

/-- JavaScript String.prototype.split with a non-empty separator. -/
def jsSplit (sep s : String) : List String :=
  (jsSplitGo sep.toList (s.toList.length + 1) s.toList).map List.asString

/-! ## JavaScript Map modelled as an association list -/

/-- Map.prototype.get: first binding of the key, if any. -/
def mapGet {α : Type} (m : List (String × α)) (k : String) : Option α :=
  match m.find? (fun p => p.1 == k) with
  | none => none
  | some p => some p.2

/-- Map.prototype.set: replace the first binding of the key in place, or
append a new binding at the end (Map preserves insertion order). -/
def mapSet {α : Type} : List (String × α) → String → α → List (String × α)
  | [], k, v => [(k, v)]
  | (k', v') :: rest, k, v =>
    if k' == k then (k, v) :: rest else (k', v') :: mapSet rest k v

/-! ## ProjectReport (types/project_report.ts) -/

structure CryptoRepartition where
  toArtist : Int
  toAdditional : Int
deriving DecidableEq, Inhabited

/-- Total volume plus the OSV1, OSV2 and LOOKSRARE per-exchange volumes. -/
structure PaymentTokenVolume where
  total : Int
  OSV1 : Int
  OSV2 : Int
  LOOKSRARE : Int
deriving DecidableEq, Inhabited

/-- The source reads volume[sale.exchange]. -/
def PaymentTokenVolume.exchangeVolume (v : PaymentTokenVolume) : Exchange → Int
  | .OSV1 => v.OSV1
  | .OSV2 => v.OSV2
  | .LOOKSRARE => v.LOOKSRARE

/-- The source writes volume[sale.exchange] = x. -/
def PaymentTokenVolume.withExchangeVolume (v : PaymentTokenVolume) :
    Exchange → Int → PaymentTokenVolume
  | .OSV1, x => { v with OSV1 := x }
  | .OSV2, x => { v with OSV2 := x }
  | .LOOKSRARE, x => { v with LOOKSRARE := x }

structure ProjectReport where
  projectId : Int
  name : String
  artistAddress : String
  additionalPayeeAddress : Option String
  additionalPayeePercentage : Option Int
  totalSales : Nat
  paymentTokenVolumes : List (String × PaymentTokenVolume)
  cryptoDue : List (String × CryptoRepartition)
deriving DecidableEq, Inhabited

/-- The ProjectReport constructor: counters zeroed, maps empty. -/
def ProjectReport.new (projectId : Int) (name artistAddress : String)
    (additionalPayeeAddress : Option String)
    (additionalPayeePercentage : Option Int) : ProjectReport :=
  { projectId := projectId
    name := name
    artistAddress := artistAddress
    additionalPayeeAddress := additionalPayeeAddress
    additionalPayeePercentage := additionalPayeePercentage
    totalSales := 0
    paymentTokenVolumes := []
    cryptoDue := [] }

/-- project_report.ts ProjectReport.addSale.  The address-to-symbol
resolver (utils/token_conversion.ts, not part of the analysed sources) is
passed in as the function addressToPaymentToken; the claims hold for every
resolver. -/
def ProjectReport.addSale (addressToPaymentToken : String → String)
    (pr : ProjectReport) (sale : T_Sale) (nbTokensSold : Nat) : ProjectReport :=
  let priceAttributedToProject : Int := (sale.price : Int) / (nbTokensSold : Int)
  let cryptoName := addressToPaymentToken sale.paymentToken
  -- volume === undefined is replaced by the zeroed record
  let volume := (mapGet pr.paymentTokenVolumes cryptoName).getD
    { total := 0, OSV1 := 0, OSV2 := 0, LOOKSRARE := 0 }
  let volume := { volume with total := volume.total + priceAttributedToProject }
  let volume := volume.withExchangeVolume sale.exchange
    (volume.exchangeVolume sale.exchange + priceAttributedToProject)
  { pr with
    totalSales := pr.totalSales + 1
    paymentTokenVolumes := mapSet pr.paymentTokenVolumes cryptoName volume }

/-- The global royalty due for one payment token inside computeCryptoDue:
openseaFeesPercentage is the fixed constant 5 of the source; the LooksRare
volume is multiplied by the supplied looksRareFeesPercentage. -/
def globalDueFor (looksRareFeesPercentage : Int) (volumeTotal : PaymentTokenVolume) : Int :=
  let openseaFeesPercentage : Int := 5
  let volumeOpensea := volumeTotal.OSV1 + volumeTotal.OSV2
  let volumeLoooksRare := volumeTotal.LOOKSRARE
  volumeOpensea * openseaFeesPercentage / 100 +
    volumeLoooksRare * looksRareFeesPercentage / 100

/-- The repartition computed inside computeCryptoDue for one payment
token: toAdditionalPayee is globalDue times the configured percentage
over 100 when an additional payee percentage is configured and the
literal 0 otherwise, and dueToArtist is globalDue minus it. -/
def cryptoRepartitionFor (looksRareFeesPercentage : Int)
    (additionalPayeePercentage : Option Int)
    (volumeTotal : PaymentTokenVolume) : CryptoRepartition :=
  let globalDue := globalDueFor looksRareFeesPercentage volumeTotal
  let toAdditionalPayee : Int :=
    match additionalPayeePercentage with
    | some pct => globalDue * pct / 100
    | none => 0
  let dueToArtist := globalDue - toAdditionalPayee
  { toArtist := dueToArtist, toAdditional := toAdditionalPayee }

/-- project_report.ts ProjectReport.computeCryptoDue with the declared
TypeScript signature (a number argument).  The source iterates the keys of
paymentTokenVolumes and sets an entry of cryptoDue for each. -/
def ProjectReport.computeCryptoDue (pr : ProjectReport)
    (looksRareFeesPercentage : Int) : ProjectReport :=
  { pr with
    cryptoDue :=
      pr.paymentTokenVolumes.foldl (fun acc entry =>
        mapSet acc entry.1
          (cryptoRepartitionFor looksRareFeesPercentage
            pr.additionalPayeePercentage entry.2))
        pr.cryptoDue }

/-- ethers BigNumber.mul under JavaScript semantics when the factor may be
the undefined value: BigNumber.from(undefined) throws an invalid-value
error, aborting the computation. -/
def bigNumberMul (a : Int) : Option Int → Except String Int
  | none => .error "invalid BigNumber value"
  | some b => .ok (a * b)

/-- ProjectReport.computeCryptoDue under JavaScript call semantics, where
the looksRareFeesPercentage argument can be the undefined value (none):
sales_service.ts invokes computeCryptoDue() with no argument, so the
parameter is undefined at runtime and the multiplication by it throws. -/
def ProjectReport.computeCryptoDueJS (pr : ProjectReport)
    (looksRareFeesPercentage : Option Int) : Except String ProjectReport := do
  let cryptoDue ← pr.paymentTokenVolumes.foldlM (fun acc entry => do
      let volumeTotal := entry.2
      let volumeOpensea := volumeTotal.OSV1 + volumeTotal.OSV2
      let volumeLoooksRare := volumeTotal.LOOKSRARE
      let openseaTerm := volumeOpensea * 5 / 100
      let looksRareProduct ← bigNumberMul volumeLoooksRare looksRareFeesPercentage
      let globalDue := openseaTerm + looksRareProduct / 100
      let toAdditionalPayee : Int :=
        match pr.additionalPayeePercentage with
        | some pct => globalDue * pct / 100
        | none => 0
      let dueToArtist := globalDue - toAdditionalPayee
      pure (mapSet acc entry.1 { toArtist := dueToArtist, toAdditional := toAdditionalPayee }))
    pr.cryptoDue
  pure { pr with cryptoDue := cryptoDue }

/-! ## SalesService (services/sales_service.ts) -/

/-- sales_service.ts SalesService.saleHasRoyalties.  The constant
BLOCK_WHERE_PRIVATE_SALES_HAVE_ROYALTIES lives in constant.ts, which is
not among the analysed sources; it is taken as a parameter, so every
theorem holds for any value of the threshold. -/
def saleHasRoyalties (BLOCK_WHERE_PRIVATE_SALES_HAVE_ROYALTIES : Nat)
    (sale : T_Sale) : Bool :=
  (sale.isPrivate == false) ||
    (sale.isPrivate &&
      decide (sale.blockNumber ≥ BLOCK_WHERE_PRIVATE_SALES_HAVE_ROYALTIES))

/-- Membership in the half-open block range [gte, lt). -/
def inBlockRange (gte lt : Nat) (s : T_Sale) : Bool :=
  decide (gte ≤ s.blockNumber) && decide (s.blockNumber < lt)

/-- Modelled from the spec: repositories/sales_repository.ts is not among
the analysed sources.  Spec section 6 gives its contract: fetchSalesPage
returns the sales of the indexed source whose block number lies in
[blockNumberGte, blockNumberLt), ordered descending by block number,
skipping skip rows and returning at most first rows.  The indexed source
is modelled as the full descending-ordered list allSales. -/
def getSalesBetweenBlockNumbers (allSales : List T_Sale) (first skip : Nat)
    (blockNumberGte blockNumberLt : Nat) : List T_Sale :=
  (((allSales.filter (inBlockRange blockNumberGte blockNumberLt)).drop skip).take first)

/-- sales_service.ts inner while(!foundBlockToSplit) loop after its first
iteration (which pops the final sale and records its block number as
blockNumberFinalSale).  The argument list is the remaining page in popping
order, i.e. the JavaScript array reversed.  Popped sales whose block
number does not exceed blockNumberFinalSale are discarded; the first sale
with a strictly greater block number is pushed back and its block number
becomes the next exclusive upper bound.  Popping an already-empty page is
the JavaScript TypeError on reading blockNumber of undefined. -/
def findBlockToSplit (blockNumberFinalSale : Nat) :
    List T_Sale → Except String (List T_Sale × Nat)
  | [] => .error "TypeError: cannot read blockNumber of undefined (page exhausted while searching for a block to split)"
  | lastSale :: rest =>
    if blockNumberFinalSale < lastSale.blockNumber then
      .ok ((lastSale :: rest).reverse, lastSale.blockNumber)
    else findBlockToSplit blockNumberFinalSale rest

/-- The full inner loop of getAllSalesBetweenBlockNumbers on a fetched
page: pop the last sale, remember its block number, then search for the
block to split at.  Returns the kept sales (in page order) and the new
exclusive upper bound. -/
def splitFullPage (newSales : List T_Sale) : Except String (List T_Sale × Nat) :=
  match newSales.reverse with
  | [] => .error "TypeError: cannot read blockNumber of undefined (empty page)"
  | lastSale :: rest => findBlockToSplit lastSale.blockNumber rest

/-- sales_service.ts getAllSalesBetweenBlockNumbers main while(true) loop.
fuel bounds the number of iterations; every iteration that does not
terminate strictly decreases blockNumberLt, so any fuel exceeding the
initial blockNumberLt is sufficient (running out of fuel cannot happen
then, see the theorems). -/
def getAllSalesLoop (allSales : List T_Sale) (first blockNumberGte : Nat) :
    Nat → Nat → Except String (List T_Sale)
  | _blockNumberLt, 0 => .error "fuel exhausted"
  | blockNumberLt, fuel + 1 =>
    let newSales := getSalesBetweenBlockNumbers allSales first 0 blockNumberGte blockNumberLt
    if newSales.length < first then
      -- found all remaining sales, no scroll required
      .ok newSales
    else
      match splitFullPage newSales with
      | .error e => .error e
      | .ok (kept, newLt) =>
        match getAllSalesLoop allSales first blockNumberGte newLt fuel with
        | .error e => .error e
        | .ok rest => .ok (kept ++ rest)

/-- sales_service.ts SalesService.getAllSalesBetweenBlockNumbers for the
half-open block range blockRange = (blockNumberGte, blockNumberLt), with
page size first = 1000 and skip always 0. -/
def getAllSalesBetweenBlockNumbers (allSales : List T_Sale)
    (blockRange : Nat × Nat) : Except String (List T_Sale) :=
  getAllSalesLoop allSales 1000 blockRange.1 blockRange.2 (blockRange.2 + 1)

/-- The per-sale original token count of sales_service.ts
generateProjectReports: sale.summaryTokensSold.split("::").length. -/
def nbTokensSoldOf (sale : T_Sale) : Nat :=
  (jsSplit "::" sale.summaryTokensSold).length

/-- The aggregation phase of sales_service.ts generateProjectReports
(the browse-all-sales loop): for every sale and every surviving lookup
table entry, get or instanciate the report keyed by the project name and
add the sale to it. -/
def buildReports (addressToPaymentToken : String → String)
    (sales : List T_Sale) : List (String × ProjectReport) :=
  sales.foldl (fun projectReports sale =>
    let saleLookupTables := sale.saleLookupTables
    let nbTokensSold := nbTokensSoldOf sale
    saleLookupTables.foldl (fun projectReports tokenSaleLookupTable =>
      let project := tokenSaleLookupTable.token.project
      let projectReport :=
        match mapGet projectReports project.name with
        | none =>
          ProjectReport.new (project.id.toInt?.getD 0) project.name
            project.artistAddress project.additionalPayee
            project.additionalPayeePercentage
        | some pr => pr
      mapSet projectReports project.name
        (projectReport.addSale addressToPaymentToken sale nbTokensSold))
      projectReports) []

/-- sales_service.ts SalesService.generateProjectReports: aggregation
followed by the finalization loop, which invokes computeCryptoDue() with
no argument, leaving its looksRareFeesPercentage parameter undefined. -/
def generateProjectReports (addressToPaymentToken : String → String)
    (sales : List T_Sale) : Except String (List (String × ProjectReport)) := do
  let projectReports := buildReports addressToPaymentToken sales
  projectReports.mapM (fun entry => do
    let finalized ← entry.2.computeCryptoDueJS none
    pure (entry.1, finalized))

/-! ## OpenSea marketplace importer (repositories/opensea_api.ts)

The file holds two variants of the importer; they are embedded in the
namespaces OpenSeaApiV1 (first half of the file) and OpenSeaApiV2 (second
half).  The raw OpenSea event model keeps only the fields the importer
reads. -/

structure OSCollection where
  slug : String
deriving DecidableEq, Inhabited

structure OSAsset where
  token_id : String
  collection : OSCollection
deriving DecidableEq, Inhabited

structure OSTransaction where
  block_number : Nat
  timestamp : String
  transaction_hash : String
  to_account : String
deriving DecidableEq, Inhabited

/-- A raw OpenSea successful-sale event.  asset holds the single sold
asset; asset_bundle is null (none) for single sales and the constituent
asset list for bundle sales. -/
structure OSEvent where
  id : String
  asset : OSAsset
  asset_bundle : Option (List OSAsset)
  transaction : OSTransaction
  winner_account : String
  payment_token : String
  total_price : Nat
  is_private : Bool
deriving DecidableEq, Inhabited

/-- The subgraph-model token of the opensea_api.ts conversion (this
version of T_Token carries the tokenId). -/
structure T_TokenOS where
  id : String
  tokenId : String
  contract : T_Contract
  project : T_Project
deriving DecidableEq, Inhabited

structure T_OpenSeaSaleLookupTable where
  id : String
  token : T_TokenOS
deriving DecidableEq, Inhabited

structure T_OpenSeaSale where
  id : String
  openSeaVersion : String
  saleType : String
  blockNumber : Nat
  blockTimestamp : String
  seller : String
  buyer : String
  paymentToken : String
  price : Nat
  isPrivate : Bool
  summaryTokensSold : String
  openSeaSaleLookupTables : List T_OpenSeaSaleLookupTable
deriving DecidableEq, Inhabited

/-- One element of T_TokenZero.tokens: the contract and project data the
conversion copies into every produced token. -/
structure TokenZeroToken where
  contract : T_Contract
  project : T_Project
deriving DecidableEq, Inhabited

structure T_TokenZero where
  tokens : List TokenZeroToken
deriving DecidableEq, Inhabited

/-- tokenZero.tokens[0]: the conversion only ever reads the first
element. -/
def T_TokenZero.token0 (tz : T_TokenZero) : TokenZeroToken :=
  tz.tokens.headD default

/-- JavaScript String.prototype.includes: does s contain searchString as
a contiguous substring? -/
def jsIncludesGo (searchString : List Char) : List Char → Bool
  | [] => List.isPrefixOf searchString []
  | c :: cs => List.isPrefixOf searchString (c :: cs) || jsIncludesGo searchString cs

def jsIncludes (s searchString : String) : Bool :=
  jsIncludesGo searchString.toList s.toList

/-- The summaryTokensSold encoding: start from "dummy", then append
"::dummy" once per constituent bundle asset beyond the first (the source
loop intentionally begins at index 1). -/
def summaryTokensSoldFor (asset_bundle : Option (List OSAsset)) : String :=
  match asset_bundle with
  | none => "dummy"
  | some assets =>
    (List.range (assets.length - 1)).foldl (fun s _ => s ++ "::dummy") "dummy"

/-- The single-sale lookup table entry (id joined with single colons). -/
def singleLookupTable (tokenZero : T_TokenZero) (e : OSEvent) : T_OpenSeaSaleLookupTable :=
  let t0 := tokenZero.token0
  let token : T_TokenOS :=
    { id := t0.contract.id ++ "-" ++ e.asset.token_id
      tokenId := e.asset.token_id
      contract := t0.contract
      project := t0.project }
  { id := t0.project.id ++ ":" ++ token.id ++ ":" ++ e.id
    token := token }

/-- The bundle-sale lookup table entry for one constituent asset (id
joined with double colons). -/
def bundleLookupTable (tokenZero : T_TokenZero) (e : OSEvent) (a : OSAsset) :
    T_OpenSeaSaleLookupTable :=
  let t0 := tokenZero.token0
  let token : T_TokenOS :=
    { id := t0.contract.id ++ "-" ++ a.token_id
      tokenId := a.token_id
      contract := t0.contract
      project := t0.project }
  { id := t0.project.id ++ "::" ++ token.id ++ "::" ++ e.id
    token := token }

/-- The event fields copied verbatim into the converted sale. -/
def convertedSale (e : OSEvent) (lookupTables : List T_OpenSeaSaleLookupTable) :
    T_OpenSeaSale :=
  { id := e.id
    openSeaVersion := "Vunknown"
    saleType := if e.asset_bundle = none then "Single" else "Bundle"
    blockNumber := e.transaction.block_number
    blockTimestamp := e.transaction.timestamp
    seller := e.transaction.to_account
    buyer := e.winner_account
    paymentToken := e.payment_token
    price := e.total_price
    isPrivate := e.is_private
    summaryTokensSold := summaryTokensSoldFor e.asset_bundle
    openSeaSaleLookupTables := lookupTables }

namespace OpenSeaApiV1

/-- The body of the first importer variant for one event: bundle sales
retain exactly the constituent assets whose reported collection slug
equals the requested one; each non-matching asset only produces a console
warning (a diagnostic) and is dropped. -/
def openSeaEventToSale (tokenZero : T_TokenZero) (collectionSlug : String)
    (e : OSEvent) : T_OpenSeaSale :=
  let lookupTables :=
    match e.asset_bundle with
    | none => [singleLookupTable tokenZero e]
    | some assets =>
      assets.filterMap (fun a =>
        if a.collection.slug == collectionSlug then
          some (bundleLookupTable tokenZero e a)
        else
          -- the else branch of the source only emits the multi-slug
          -- bundle warnings on the console
          none)
  convertedSale e lookupTables

/-- First importer variant, openSeaEventModelToSubgraphModel. -/
def openSeaEventModelToSubgraphModel (tokenZero : T_TokenZero)
    (collectionSlug : String) (openSeaEvents : List OSEvent) : List T_OpenSeaSale :=
  openSeaEvents.map (openSeaEventToSale tokenZero collectionSlug)

/-- The per-page for loop of getOpenSeaSalesEvents: keep events whose
block number is at least minBlockNumber, and break out (discarding the
rest of the page) at the first event below it.  Returns the kept events
and the _reachedMinBlockNumber flag. -/
def scanPage (minBlockNumber : Nat) : List T_OpenSeaSale → List T_OpenSeaSale × Bool
  | [] => ([], false)
  | s :: rest =>
    if s.blockNumber ≥ minBlockNumber then
      let (kept, reached) := scanPage minBlockNumber rest
      (s :: kept, reached)
    else ([], true)

/-- The pagination loop over the successive pages of raw events returned
by the OpenSea API (the HTTP fetching, retry and throttling machinery is
abstracted into the given page list; data.next == null is the end of the
list). -/
def getOpenSeaSalesEventsLoop (tokenZero : T_TokenZero) (collectionSlug : String)
    (minBlockNumber : Nat) : List (List OSEvent) → List T_OpenSeaSale
  | [] => []
  | page :: rest =>
    let newOpenSeaSales := openSeaEventModelToSubgraphModel tokenZero collectionSlug page
    let (kept, reached) := scanPage minBlockNumber newOpenSeaSales
    if reached then kept
    else kept ++ getOpenSeaSalesEventsLoop tokenZero collectionSlug minBlockNumber rest

/-- First variant of getOpenSeaSalesEvents, including the permanent
cryptocitizens exclusion. -/
def getOpenSeaSalesEvents (tokenZero : T_TokenZero) (collectionSlug : String)
    (minBlockNumber : Nat) (pages : List (List OSEvent)) : List T_OpenSeaSale :=
  if collectionSlug == "cryptocitizensofficial" then []
  else getOpenSeaSalesEventsLoop tokenZero collectionSlug minBlockNumber pages

end OpenSeaApiV1

namespace OpenSeaApiV2

/-- The body of the second variant for one bundle asset: a slug that
contains the requested slug as a substring but differs from it is
coalesced to the requested slug (with a warning); after that, an asset
whose slug still differs from the requested slug throws. -/
def bundleAssetLookup (tokenZero : T_TokenZero) (collectionSlug : String)
    (e : OSEvent) (a : OSAsset) : Except String T_OpenSeaSaleLookupTable :=
  let openSeaCollectionSlug := a.collection.slug
  let slug :=
    if jsIncludes openSeaCollectionSlug collectionSlug &&
        openSeaCollectionSlug != collectionSlug then
      collectionSlug
    else openSeaCollectionSlug
  if slug == collectionSlug then .ok (bundleLookupTable tokenZero e a)
  else .error "[ERROR] Unexpected OS API response - please contact devs"

/-- Second importer variant, openSeaEventModelToSubgraphModel: a bundle
is processed only when every constituent asset reports the same slug as
the first one; otherwise the whole bundle is skipped with a warning and
the sale carries zero lookup tables. -/
def openSeaEventModelToSubgraphModelEvent (tokenZero : T_TokenZero)
    (collectionSlug : String) (e : OSEvent) : Except String T_OpenSeaSale := do
  let lookupTables ←
    match e.asset_bundle with
    | none => pure [singleLookupTable tokenZero e]
    | some assets =>
      if assets.all (fun a =>
          a.collection.slug == ((assets.headD default).collection.slug)) then
        assets.mapM (bundleAssetLookup tokenZero collectionSlug e)
      else
        -- multi-slug bundle: the source only warns and skips the bundle
        pure []
  pure (convertedSale e lookupTables)

def openSeaEventModelToSubgraphModel (tokenZero : T_TokenZero)
    (collectionSlug : String) (openSeaEvents : List OSEvent) :
    Except String (List T_OpenSeaSale) :=
  openSeaEvents.mapM (openSeaEventModelToSubgraphModelEvent tokenZero collectionSlug)

/-- The per-page for loop of the second getOpenSeaSalesEvents variant: it
filters each event individually (no break), still raising the
_reachedMinBlockNumber flag when any event of the page is below
minBlockNumber. -/
def scanPage (minBlockNumber : Nat) : List T_OpenSeaSale → List T_OpenSeaSale × Bool
  | [] => ([], false)
  | s :: rest =>
    let (kept, reached) := scanPage minBlockNumber rest
    if s.blockNumber ≥ minBlockNumber then (s :: kept, reached)
    else (kept, true)

def getOpenSeaSalesEventsLoop (tokenZero : T_TokenZero) (collectionSlug : String)
    (minBlockNumber : Nat) : List (List OSEvent) → Except String (List T_OpenSeaSale)
  | [] => .ok []
  | page :: rest => do
    let newOpenSeaSales ← openSeaEventModelToSubgraphModel tokenZero collectionSlug page
    let (kept, reached) := scanPage minBlockNumber newOpenSeaSales
    if reached then pure kept
    else do
      let more ← getOpenSeaSalesEventsLoop tokenZero collectionSlug minBlockNumber rest
      pure (kept ++ more)

/-- Second variant of getOpenSeaSalesEvents. -/
def getOpenSeaSalesEvents (tokenZero : T_TokenZero) (collectionSlug : String)
    (minBlockNumber : Nat) (pages : List (List OSEvent)) :
    Except String (List T_OpenSeaSale) :=
  if collectionSlug == "cryptocitizensofficial" then .ok []
  else getOpenSeaSalesEventsLoop tokenZero collectionSlug minBlockNumber pages

end OpenSeaApiV2

/-! ## Concrete fixtures used by examples, witnesses and counterexamples -/

def exampleProject : T_Project :=
  { id := "3"
    name := "P"
    artistAddress := "0xa"
    curationStatus := "curated"
    additionalPayee := none
    additionalPayeePercentage := none }

def exampleToken : T_Token :=
  { id := "0xc-1", contract := { id := "0xc" }, project := exampleProject }

def exampleLookupEntry : T_SaleLookupTable :=
  { id := "plt1", token := exampleToken }

def exampleSingleSale : T_Sale :=
  { id := "s1"
    exchange := .OSV1
    saleType := "Single"
    blockNumber := 100
    seller := "0xs"
    buyer := "0xb"
    paymentToken := "0xeth"
    price := 100
    isPrivate := false
    summaryTokensSold := "dummy"
    saleLookupTables := [exampleLookupEntry] }

/-- A bundle sale of 3 tokens (summary encoding of cardinality 3) at
price 100, with two surviving lookup tables of the same project. -/
def exampleBundleSale : T_Sale :=
  { id := "s2"
    exchange := .OSV1
    saleType := "Bundle"
    blockNumber := 120
    seller := "0xs"
    buyer := "0xb"
    paymentToken := "0xeth"
    price := 100
    isPrivate := false
    summaryTokensSold := "dummy::dummy::dummy"
    saleLookupTables :=
      [exampleLookupEntry, { id := "plt2", token := exampleToken }] }

/-- A private sale fixture at a chosen block number. -/
def examplePrivateSaleAt (bn : Nat) : T_Sale :=
  { exampleSingleSale with id := "priv", isPrivate := true, blockNumber := bn }

def exampleTokenZero : T_TokenZero :=
  { tokens := [{ contract := { id := "0xc" }, project := exampleProject }] }

/-- A single-asset OpenSea event fixture at a chosen block number. -/
def exampleOSEventAt (name : String) (bn : Nat) : OSEvent :=
  { id := name
    asset := { token_id := "7", collection := { slug := "target" } }
    asset_bundle := none
    transaction :=
      { block_number := bn, timestamp := "t", transaction_hash := "0xh", to_account := "0xs" }
    winner_account := "0xb"
    payment_token := "0xeth"
    total_price := 10
    is_private := false }

/-- A bundle event whose two assets report the genuinely different
collection slugs target and elsewhere (neither contains the other). -/
def exampleMixedBundleEvent : OSEvent :=
  { id := "bundle1"
    asset := { token_id := "7", collection := { slug := "target" } }
    asset_bundle := some
      [ { token_id := "7", collection := { slug := "target" } },
        { token_id := "8", collection := { slug := "elsewhere" } } ]
    transaction :=
      { block_number := 50, timestamp := "t", transaction_hash := "0xh", to_account := "0xs" }
    winner_account := "0xb"
    payment_token := "0xeth"
    total_price := 10
    is_private := false }

/-- A ProjectReport fixture with a single ETH volume (20000 on OSV1) and
an additional payee at 20 percent. -/
def exampleReportForDue : ProjectReport :=
  { projectId := 3
    name := "P"
    artistAddress := "0xa"
    additionalPayeeAddress := some "0xp"
    additionalPayeePercentage := some 20
    totalSales := 1
    paymentTokenVolumes := [("ETH", { total := 20000, OSV1 := 20000, OSV2 := 0, LOOKSRARE := 0 })]
    cryptoDue := [] }

/-- A four-sale descending source spanning blocks 9, 7, 7, 5. -/
def exampleSourceSales : List T_Sale :=
  [{ exampleSingleSale with id := "a", blockNumber := 9 },
   { exampleSingleSale with id := "b", blockNumber := 7 },
   { exampleSingleSale with id := "c", blockNumber := 7 },
   { exampleSingleSale with id := "d", blockNumber := 5 }]

/-! ## Derived notions used by the theorems -/

/-- The sum of ProjectReport.totalSales over all generated reports. -/
def sumTotalSales (reports : List (String × ProjectReport)) : Nat :=
  (reports.map (fun e => e.2.totalSales)).sum

/-- The number of sales having at least one surviving lookup-table
entry. -/
def numSalesWithSurvivingLookup (sales : List T_Sale) : Nat :=
  (sales.filter (fun s => decide (0 < s.saleLookupTables.length))).length

/-- The indexed source returns sales ordered descending by block
number. -/
abbrev sortedDesc (l : List T_Sale) : Prop :=
  l.Pairwise (fun a b => b.blockNumber ≤ a.blockNumber)

/-! ## Helper lemmas -/

theorem jsSplitGo_length_pos (sep : List Char) (fuel : Nat) (s : List Char) :
    0 < (jsSplitGo sep fuel s).length := by
  cases fuel with
  | zero => simp [jsSplitGo]
  | succ n =>
    unfold jsSplitGo
    rcases h : splitFirst sep s with _ | ⟨pre, post⟩ <;> simp [h]

theorem mapGet_cons_ne {α : Type} (q : String × α) (m : List (String × α))
    (k : String) (h : ¬ q.1 = k) : mapGet (q :: m) k = mapGet m k := by
  simp [mapGet, List.find?_cons, h]

theorem mapGet_mapSet_self {α : Type} (m : List (String × α)) (k : String) (v : α) :
    mapGet (mapSet m k v) k = some v := by
  induction m with
  | nil => simp [mapSet, mapGet]
  | cons p rest ih =>
    by_cases h : p.1 = k
    · simp [mapSet, mapGet, h]
    · simp only [mapSet]
      rw [if_neg (by simpa using h), mapGet_cons_ne _ _ _ h]
      exact ih

theorem mem_mapSet {α : Type} {m : List (String × α)} {k : String} {v : α}
    {p : String × α} (h : p ∈ mapSet m k v) : p ∈ m ∨ p = (k, v) := by
  induction m with
  | nil => simpa [mapSet] using h
  | cons q rest ih =>
    simp only [mapSet] at h
    split at h
    · rcases List.mem_cons.mp h with h1 | h1
      · right; exact h1
      · left; exact List.mem_cons_of_mem _ h1
    · rcases List.mem_cons.mp h with h1 | h1
      · left; rw [h1]; exact List.mem_cons_self _ _
      · rcases ih h1 with h2 | h2
        · left; exact List.mem_cons_of_mem _ h2
        · right; exact h2

theorem withExchangeVolume_total (v : PaymentTokenVolume) (ex : Exchange) (x : Int) :
    (v.withExchangeVolume ex x).total = v.total := by
  cases ex <;> rfl

theorem exchangeVolume_withExchangeVolume_self (v : PaymentTokenVolume)
    (ex : Exchange) (x : Int) :
    (v.withExchangeVolume ex x).exchangeVolume ex = x := by
  cases ex <;> rfl

theorem exchangeVolume_total_update (v : PaymentTokenVolume) (t : Int) (ex : Exchange) :
    ({ v with total := t } : PaymentTokenVolume).exchangeVolume ex = v.exchangeVolume ex := by
  cases ex <;> rfl

/-! ## Claims -/

/-- C7: the royalty-eligibility filter keeps a sale iff it is not
private, or it is private and its block number is at or after the
threshold; a private sale at block N-1 (threshold N) is dropped while one
at block N is kept; the predicate depends only on the isPrivate flag and
the block number; and processSales applies exactly this predicate as a
filter. -/
theorem saleHasRoyalties_characterization :
    (∀ (N : Nat) (sale : T_Sale), saleHasRoyalties N sale = true ↔
      (sale.isPrivate = false ∨ (sale.isPrivate = true ∧ N ≤ sale.blockNumber))) ∧
    (∀ (N : Nat) (s t : T_Sale), s.isPrivate = t.isPrivate →
      s.blockNumber = t.blockNumber → saleHasRoyalties N s = saleHasRoyalties N t) ∧
    (∀ N : Nat, 0 < N → ∀ sale : T_Sale, sale.isPrivate = true →
      (sale.blockNumber = N - 1 → saleHasRoyalties N sale = false) ∧
      (sale.blockNumber = N → saleHasRoyalties N sale = true)) ∧
    (∀ (N : Nat) (sales : List T_Sale) (sale : T_Sale),
      sale ∈ sales.filter (saleHasRoyalties N) ↔
        sale ∈ sales ∧ saleHasRoyalties N sale = true) := by
  refine ⟨?_, ?_, ?_, ?_⟩
  · intro N sale
    cases h : sale.isPrivate <;> simp [saleHasRoyalties, h]
  · intro N s t h1 h2
    simp [saleHasRoyalties, h1, h2]
  · intro N hN sale hp
    constructor
    · intro hb
      simp [saleHasRoyalties, hp, hb]
      omega
    · intro hb
      simp [saleHasRoyalties, hp, hb]
  · intro N sales sale
    exact List.mem_filter

/-- C7 witness: with threshold 5, the private sale at block 4 is dropped
and the private sale at block 5 is kept. -/
theorem saleHasRoyalties_characterization_witness :
    saleHasRoyalties 5 (examplePrivateSaleAt 4) = false ∧
      saleHasRoyalties 5 (examplePrivateSaleAt 5) = true :=
  ⟨(saleHasRoyalties_characterization.2.2.1 5 (by decide)
      (examplePrivateSaleAt 4) rfl).1 rfl,
   (saleHasRoyalties_characterization.2.2.1 5 (by decide)
      (examplePrivateSaleAt 5) rfl).2 rfl⟩

/-- C10: the per-token count summaryTokensSold.split("::").length is at
least one for every sale (JavaScript split never returns an empty array,
even on the empty string), so the divisor addSale receives from
generateProjectReports is never zero. -/
theorem nbTokensSold_never_zero :
    ∀ sale : T_Sale, 0 < nbTokensSoldOf sale ∧ (nbTokensSoldOf sale : Int) ≠ 0 := by
  intro sale
  have h : 0 < nbTokensSoldOf sale := by
    unfold nbTokensSoldOf jsSplit
    rw [List.length_map]
    exact jsSplitGo_length_pos _ _ _
  exact ⟨h, by exact_mod_cast Nat.pos_iff_ne_zero.mp h⟩

/-- C2: addSale attributes to the project exactly price divided
(truncating integer division) by the original per-token count, the
cardinality of the "::"-split of summaryTokensSold that
generateProjectReports passes in, regardless of how many lookup tables
survived filtering; the truncation remainder is not redistributed, as the
concrete bundle of 3 tokens at price 100 shows: the recorded share is
exactly 33 and 3 * 33 = 99 < 100. -/
theorem addSale_share_is_price_div_original_count :
    (∀ (atp : String → String) (pr : ProjectReport) (sale : T_Sale),
      ∃ v : PaymentTokenVolume,
        mapGet ((pr.addSale atp sale (nbTokensSoldOf sale)).paymentTokenVolumes)
            (atp sale.paymentToken) = some v ∧
        v.total =
          ((mapGet pr.paymentTokenVolumes (atp sale.paymentToken)).getD
              { total := 0, OSV1 := 0, OSV2 := 0, LOOKSRARE := 0 }).total +
            (sale.price : Int) / (nbTokensSoldOf sale : Int) ∧
        v.exchangeVolume sale.exchange =
          ((mapGet pr.paymentTokenVolumes (atp sale.paymentToken)).getD
              { total := 0, OSV1 := 0, OSV2 := 0, LOOKSRARE := 0 }).exchangeVolume
              sale.exchange +
            (sale.price : Int) / (nbTokensSoldOf sale : Int)) ∧
    nbTokensSoldOf exampleBundleSale = 3 ∧
    mapGet ((ProjectReport.addSale (fun a => a)
        (ProjectReport.new 3 "P" "0xa" none none) exampleBundleSale
        (nbTokensSoldOf exampleBundleSale)).paymentTokenVolumes) "0xeth" =
      some { total := 33, OSV1 := 33, OSV2 := 0, LOOKSRARE := 0 } ∧
    3 * (33 : Int) = 99 ∧ (99 : Int) < 100 := by
  refine ⟨?_, by decide, by decide, by decide, by decide⟩
  intro atp pr sale
  unfold ProjectReport.addSale
  exact ⟨_, mapGet_mapSet_self _ _ _,
    by simp [withExchangeVolume_total],
    by simp [exchangeVolume_withExchangeVolume_self, exchangeVolume_total_update]⟩

theorem mem_computeCryptoDue_foldl (fee : Int) (apct : Option Int)
    (entries : List (String × PaymentTokenVolume)) :
    ∀ (acc : List (String × CryptoRepartition)) (p : String × CryptoRepartition),
      p ∈ entries.foldl (fun acc entry =>
          mapSet acc entry.1 (cryptoRepartitionFor fee apct entry.2)) acc →
      p ∈ acc ∨ ∃ v, (p.1, v) ∈ entries ∧ p.2 = cryptoRepartitionFor fee apct v := by
  induction entries with
  | nil => intro acc p h; exact Or.inl h
  | cons e rest ih =>
    intro acc p h
    rw [List.foldl_cons] at h
    rcases ih _ p h with h1 | ⟨v, hv, he⟩
    · rcases mem_mapSet h1 with h2 | h2
      · exact Or.inl h2
      · refine Or.inr ⟨e.2, ?_, by rw [h2]⟩
        have : (p.1, e.2) = e := by rw [h2]
        rw [this]; exact List.mem_cons_self _ _
    · exact Or.inr ⟨v, List.mem_cons_of_mem _ hv, he⟩

/-- C3: after computeCryptoDue with any LooksRare fee, every cryptoDue
entry of a freshly aggregated report (cryptoDue empty beforehand) splits
the global royalty due of some recorded volume exactly: artist due plus
additional due equals the global due; the additional due is 0 whenever no
additional-payee percentage is configured; the artist due is never
negative when the percentage lies between 0 and 100 and the global due is
nonnegative.  The concrete split: global due 1000 with percentage 20
yields artist 800 and additional 200. -/
theorem computeCryptoDue_split_invariant :
    (∀ (fee : Int) (pr : ProjectReport), pr.cryptoDue = [] →
      ∀ (c : String) (rep : CryptoRepartition),
        (c, rep) ∈ (pr.computeCryptoDue fee).cryptoDue →
        ∃ v, (c, v) ∈ pr.paymentTokenVolumes ∧
          rep.toArtist + rep.toAdditional = globalDueFor fee v ∧
          (pr.additionalPayeePercentage = none → rep.toAdditional = 0) ∧
          (∀ pct, pr.additionalPayeePercentage = some pct → 0 ≤ pct → pct ≤ 100 →
            0 ≤ globalDueFor fee v → 0 ≤ rep.toArtist)) ∧
    globalDueFor 0 { total := 20000, OSV1 := 20000, OSV2 := 0, LOOKSRARE := 0 } = 1000 ∧
    cryptoRepartitionFor 0 (some 20)
        { total := 20000, OSV1 := 20000, OSV2 := 0, LOOKSRARE := 0 } =
      { toArtist := 800, toAdditional := 200 } := by
  refine ⟨?_, by decide, by decide⟩
  intro fee pr h0 c rep hmem
  unfold ProjectReport.computeCryptoDue at hmem
  rcases mem_computeCryptoDue_foldl fee pr.additionalPayeePercentage
      pr.paymentTokenVolumes pr.cryptoDue (c, rep) hmem with h1 | ⟨v, hv, he⟩
  · rw [h0] at h1; cases h1
  change (c, v) ∈ _ at hv
  change rep = _ at he
  refine ⟨v, hv, ?_, ?_, ?_⟩
  · rw [he]; unfold cryptoRepartitionFor; ring
  · intro hnone; rw [he]; unfold cryptoRepartitionFor; rw [hnone]
  · intro pct hpct h0p h100 hg
    rw [he]
    unfold cryptoRepartitionFor
    rw [hpct]
    simp only
    have hle : globalDueFor fee v * pct / 100 ≤ globalDueFor fee v := by
      calc globalDueFor fee v * pct / 100
          ≤ globalDueFor fee v * 100 / 100 :=
            Int.ediv_le_ediv (by norm_num)
              (mul_le_mul_of_nonneg_left h100 hg)
        _ = globalDueFor fee v := Int.mul_ediv_cancel _ (by norm_num)
    omega

/-- C3 witness: the invariant applied to a concrete report with a single
ETH volume of 20000 on OSV1 (global due 1000) and an additional payee at
20 percent, whose computed repartition is (800, 200). -/
theorem computeCryptoDue_split_invariant_witness :
    ∃ v, ("ETH", v) ∈ exampleReportForDue.paymentTokenVolumes ∧
      (800 : Int) + 200 = globalDueFor 0 v ∧
      (exampleReportForDue.additionalPayeePercentage = none → (200 : Int) = 0) ∧
      (∀ pct, exampleReportForDue.additionalPayeePercentage = some pct →
        0 ≤ pct → pct ≤ 100 → 0 ≤ globalDueFor 0 v → (0 : Int) ≤ 800) :=
  computeCryptoDue_split_invariant.1 0 exampleReportForDue rfl "ETH"
    { toArtist := 800, toAdditional := 200 } (by decide)

/-- C6: sales_service.ts invokes computeCryptoDue() with no argument,
though project_report.ts declares computeCryptoDue with a required
looksRareFeesPercentage parameter.  Under JavaScript semantics the
parameter is undefined at the call, and ethers BigNumber.mul(undefined)
throws, so finalizing any report aborts the run: here
generateProjectReports on one single-token sale.  The claimed behaviour
(finalization parameterized by the LooksRare fee) is what the declared
signature provides, but the call site never supplies the fee. -/
theorem generateProjectReports_finalization_throws :
    generateProjectReports (fun a => a) [exampleSingleSale] =
      .error "invalid BigNumber value" := by
  rfl

theorem sumTotalSales_mapSet (m : List (String × ProjectReport)) (k : String)
    (v : ProjectReport) :
    sumTotalSales (mapSet m k v) +
        (match mapGet m k with | some pr => pr.totalSales | none => 0) =
      sumTotalSales m + v.totalSales := by
  induction m with
  | nil => simp [mapSet, mapGet, sumTotalSales]
  | cons q rest ih =>
    cases hb : (q.1 == k) with
    | true =>
      have hg : mapGet (q :: rest) k = some q.2 := by
        simp [mapGet, List.find?_cons, hb]
      have hms : mapSet (q :: rest) k v = (k, v) :: rest := by
        simp [mapSet, hb]
      rw [hg, hms]
      simp only [sumTotalSales, List.map_cons, List.sum_cons]
      omega
    | false =>
      have hg : mapGet (q :: rest) k = mapGet rest k :=
        mapGet_cons_ne _ _ _ (by simpa using hb)
      have hms : mapSet (q :: rest) k v = (q.1, q.2) :: mapSet rest k v := by
        simp [mapSet, hb]
      rw [hg, hms]
      simp only [sumTotalSales, List.map_cons, List.sum_cons] at ih ⊢
      omega

theorem addSale_totalSales (atp : String → String) (pr : ProjectReport)
    (sale : T_Sale) (n : Nat) :
    (pr.addSale atp sale n).totalSales = pr.totalSales + 1 := rfl

/-- Every iteration of the inner lookup-table loop of buildReports
increments the total sale count across all reports by exactly one. -/
theorem sumTotalSales_inner_step (atp : String → String) (sale : T_Sale) (n : Nat)
    (reports : List (String × ProjectReport)) (lt : T_SaleLookupTable) :
    sumTotalSales (mapSet reports lt.token.project.name
      ((match mapGet reports lt.token.project.name with
        | none =>
          ProjectReport.new (lt.token.project.id.toInt?.getD 0) lt.token.project.name
            lt.token.project.artistAddress lt.token.project.additionalPayee
            lt.token.project.additionalPayeePercentage
        | some pr => pr).addSale atp sale n)) = sumTotalSales reports + 1 := by
  cases hg : mapGet reports lt.token.project.name with
  | none =>
    have hsum := sumTotalSales_mapSet reports lt.token.project.name
      ((ProjectReport.new (lt.token.project.id.toInt?.getD 0) lt.token.project.name
        lt.token.project.artistAddress lt.token.project.additionalPayee
        lt.token.project.additionalPayeePercentage).addSale atp sale n)
    rw [hg] at hsum
    rw [addSale_totalSales] at hsum
    have hz : (ProjectReport.new (lt.token.project.id.toInt?.getD 0) lt.token.project.name
        lt.token.project.artistAddress lt.token.project.additionalPayee
        lt.token.project.additionalPayeePercentage).totalSales = 0 := rfl
    rw [hz] at hsum
    simp only at hsum ⊢
    omega
  | some pr =>
    have hsum := sumTotalSales_mapSet reports lt.token.project.name (pr.addSale atp sale n)
    rw [hg] at hsum
    rw [addSale_totalSales] at hsum
    simp only at hsum ⊢
    omega

theorem sumTotalSales_inner_foldl (atp : String → String) (sale : T_Sale) (n : Nat)
    (lts : List T_SaleLookupTable) :
    ∀ reports : List (String × ProjectReport),
      sumTotalSales (lts.foldl (fun projectReports tokenSaleLookupTable =>
        mapSet projectReports tokenSaleLookupTable.token.project.name
          ((match mapGet projectReports tokenSaleLookupTable.token.project.name with
            | none =>
              ProjectReport.new (tokenSaleLookupTable.token.project.id.toInt?.getD 0)
                tokenSaleLookupTable.token.project.name
                tokenSaleLookupTable.token.project.artistAddress
                tokenSaleLookupTable.token.project.additionalPayee
                tokenSaleLookupTable.token.project.additionalPayeePercentage
            | some pr => pr).addSale atp sale n)) reports) =
        sumTotalSales reports + lts.length := by
  induction lts with
  | nil => intro reports; simp
  | cons lt rest ih =>
    intro reports
    rw [List.foldl_cons, ih, sumTotalSales_inner_step]
    simp only [List.length_cons]
    omega

theorem sumTotalSales_buildReports_aux (atp : String → String) (sales : List T_Sale) :
    ∀ reports : List (String × ProjectReport),
      sumTotalSales (sales.foldl (fun projectReports sale =>
          sale.saleLookupTables.foldl (fun projectReports tokenSaleLookupTable =>
            mapSet projectReports tokenSaleLookupTable.token.project.name
              ((match mapGet projectReports tokenSaleLookupTable.token.project.name with
                | none =>
                  ProjectReport.new (tokenSaleLookupTable.token.project.id.toInt?.getD 0)
                    tokenSaleLookupTable.token.project.name
                    tokenSaleLookupTable.token.project.artistAddress
                    tokenSaleLookupTable.token.project.additionalPayee
                    tokenSaleLookupTable.token.project.additionalPayeePercentage
                | some pr => pr).addSale atp sale (nbTokensSoldOf sale))) projectReports)
          reports) =
        sumTotalSales reports + (sales.map (fun s => s.saleLookupTables.length)).sum := by
  induction sales with
  | nil => intro reports; simp
  | cons sale rest ih =>
    intro reports
    rw [List.foldl_cons, ih, sumTotalSales_inner_foldl]
    simp only [List.map_cons, List.sum_cons]
    omega

/-- buildReports distributes one totalSales increment per (sale, lookup
table) pair, so the grand total is the sum of surviving lookup-table
counts. -/
theorem sumTotalSales_buildReports (atp : String → String) (sales : List T_Sale) :
    sumTotalSales (buildReports atp sales) =
      (sales.map (fun s => s.saleLookupTables.length)).sum := by
  have := sumTotalSales_buildReports_aux atp sales []
  simpa [buildReports, sumTotalSales] using this

/-- C9 (amended): the sum of ProjectReport.totalSales over all generated
reports is at least the number of sales with at least one surviving
lookup-table entry, with equality whenever no sale carries more than one
surviving lookup-table entry.  (Equality can fail when a single sale has
several surviving entries, even if they all belong to one project: each
entry increments some totalSales.) -/
theorem totalSales_conservation (atp : String → String) (sales : List T_Sale) :
    numSalesWithSurvivingLookup sales ≤ sumTotalSales (buildReports atp sales) ∧
      ((∀ s ∈ sales, s.saleLookupTables.length ≤ 1) →
        sumTotalSales (buildReports atp sales) = numSalesWithSurvivingLookup sales) := by
  rw [sumTotalSales_buildReports]
  induction sales with
  | nil => simp [numSalesWithSurvivingLookup]
  | cons sale rest ih =>
    simp only [numSalesWithSurvivingLookup, List.map_cons, List.sum_cons,
      List.filter_cons] at ih ⊢
    constructor
    · rcases ih with ⟨ih1, _⟩
      by_cases h : 0 < sale.saleLookupTables.length
      · rw [if_pos (by simpa using h)]
        simp only [List.length_cons]
        omega
      · rw [if_neg (by simpa using h)]
        omega
    · intro hall
      have h1 : sale.saleLookupTables.length ≤ 1 :=
        hall sale (List.mem_cons_self _ _)
      have h2 := ih.2 (fun s hs => hall s (List.mem_cons_of_mem _ hs))
      by_cases h : 0 < sale.saleLookupTables.length
      · rw [if_pos (by simpa using h)]
        simp only [List.length_cons]
        omega
      · rw [if_neg (by simpa using h)]
        omega

/-- C9 witness: on a single-lookup-table sale the bound is tight. -/
theorem totalSales_conservation_witness :
    sumTotalSales (buildReports (fun a => a) [exampleSingleSale]) =
      numSalesWithSurvivingLookup [exampleSingleSale] :=
  (totalSales_conservation (fun a => a) [exampleSingleSale]).2 (by decide)

/-- C9 counterexample to the claim as stated: a bundle sale with two
surviving lookup tables that both belong to the single project P (so no
sale spans more than one project) yields a totalSales sum of 2 but only
1 sale with surviving entries, refuting the claimed equality condition. -/
theorem totalSales_conservation_claim_counterexample :
    (exampleBundleSale.saleLookupTables.map (fun e => e.token.project.name)) = ["P", "P"] ∧
    sumTotalSales (buildReports (fun a => a) [exampleBundleSale]) = 2 ∧
    numSalesWithSurvivingLookup [exampleBundleSale] = 1 ∧ (2 : Nat) ≠ 1 := by
  refine ⟨rfl, rfl, rfl, by decide⟩

/-- C4: the two importer variants disagree with the claimed
immediate-stop behaviour: on a page holding blocks 10, 3, 9 with
minBlockNumber 5, the first variant stops at the block-3 event and keeps
only block 10, while the second variant filters event by event and also
keeps the block-9 event that follows the sub-threshold one. -/
theorem getOpenSeaSalesEvents_variants_differ :
    (OpenSeaApiV1.getOpenSeaSalesEvents exampleTokenZero "target" 5
        [[exampleOSEventAt "e10" 10, exampleOSEventAt "e3" 3,
          exampleOSEventAt "e9" 9]]).map (fun s => s.blockNumber) = [10] ∧
    (OpenSeaApiV2.getOpenSeaSalesEvents exampleTokenZero "target" 5
        [[exampleOSEventAt "e10" 10, exampleOSEventAt "e3" 3,
          exampleOSEventAt "e9" 9]]).map
        (fun l => l.map (fun s => s.blockNumber)) = .ok [10, 9] := by
  constructor <;> rfl

theorem filterMap_if_eq_map_filter {α β : Type} (p : α → Bool) (f : α → β)
    (l : List α) :
    l.filterMap (fun a => if p a then some (f a) else none) = (l.filter p).map f := by
  induction l with
  | nil => rfl
  | cons a t ih =>
    by_cases h : p a <;> simp [List.filterMap_cons, List.filter_cons, h, ih]

/-- C5 (amended): the two importer variants diverge on mixed bundles.
The first variant retains exactly the constituent assets whose reported
collection slug matches the requested slug, so a mixed bundle keeps its
matching assets (partial retention) and only the non-matching ones are
dropped with a diagnostic.  The second variant processes a bundle only
when all assets report one slug; a bundle whose assets are split across
different collections yields a sale with zero lookup tables (and a
console diagnostic), contributing no royalty. -/
theorem bundle_unbundling_by_variant :
    (∀ (tz : T_TokenZero) (slug : String) (e : OSEvent) (assets : List OSAsset),
      e.asset_bundle = some assets →
      (OpenSeaApiV1.openSeaEventToSale tz slug e).openSeaSaleLookupTables =
        (assets.filter (fun a => a.collection.slug == slug)).map
          (bundleLookupTable tz e)) ∧
    (∀ (tz : T_TokenZero) (slug : String) (e : OSEvent) (assets : List OSAsset),
      e.asset_bundle = some assets →
      assets.all (fun a =>
        a.collection.slug == ((assets.headD default).collection.slug)) = false →
      OpenSeaApiV2.openSeaEventModelToSubgraphModelEvent tz slug e =
        .ok (convertedSale e [])) := by
  constructor
  · intro tz slug e assets h
    unfold OpenSeaApiV1.openSeaEventToSale
    rw [h]
    simp only [convertedSale]
    exact filterMap_if_eq_map_filter _ _ _
  · intro tz slug e assets h hall
    unfold OpenSeaApiV2.openSeaEventModelToSubgraphModelEvent
    rw [h]
    simp only [hall, Bool.false_eq_true, if_false]
    rfl

/-- C5 witness: on the concrete mixed bundle (slugs target and
elsewhere), the first variant keeps exactly the matching asset and the
second variant produces the sale with zero lookup tables. -/
theorem bundle_unbundling_by_variant_witness :
    (OpenSeaApiV1.openSeaEventToSale exampleTokenZero "target"
        exampleMixedBundleEvent).openSeaSaleLookupTables =
      (((exampleMixedBundleEvent.asset_bundle).getD []).filter
          (fun a => a.collection.slug == "target")).map
        (bundleLookupTable exampleTokenZero exampleMixedBundleEvent) ∧
    OpenSeaApiV2.openSeaEventModelToSubgraphModelEvent exampleTokenZero "target"
        exampleMixedBundleEvent = .ok (convertedSale exampleMixedBundleEvent []) :=
  ⟨bundle_unbundling_by_variant.1 exampleTokenZero "target" exampleMixedBundleEvent
      ((exampleMixedBundleEvent.asset_bundle).getD []) rfl,
   bundle_unbundling_by_variant.2 exampleTokenZero "target" exampleMixedBundleEvent
      ((exampleMixedBundleEvent.asset_bundle).getD []) rfl (by rfl)⟩

/-- C5 counterexample to the claim as stated: the first importer variant
applied to a bundle whose two assets report the genuinely different slugs
target and elsewhere (neither slug contains the other, so no
normalization is possible) produces one lookup table, not zero: the
matching asset is partially retained. -/
theorem mixedBundle_partial_retention_counterexample :
    (OpenSeaApiV1.openSeaEventModelToSubgraphModel exampleTokenZero "target"
        [exampleMixedBundleEvent]).map
        (fun s => s.openSeaSaleLookupTables.length) = [1] ∧
    jsIncludes "elsewhere" "target" = false ∧
    jsIncludes "target" "elsewhere" = false ∧ (1 : Nat) ≠ 0 := by
  refine ⟨rfl, rfl, rfl, by decide⟩

/-- One-step unfolding of the main pagination loop at positive fuel. -/
theorem getAllSalesLoop_succ (allSales : List T_Sale) (first gte lt fuel : Nat) :
    getAllSalesLoop allSales first gte lt (fuel + 1) =
      (if (getSalesBetweenBlockNumbers allSales first 0 gte lt).length < first then
        .ok (getSalesBetweenBlockNumbers allSales first 0 gte lt)
      else
        match splitFullPage (getSalesBetweenBlockNumbers allSales first 0 gte lt) with
        | .error e => .error e
        | .ok (kept, newLt) =>
          match getAllSalesLoop allSales first gte newLt fuel with
          | .error e => .error e
          | .ok rest => .ok (kept ++ rest)) := rfl

theorem inBlockRange_eq_true (gte lt : Nat) (s : T_Sale) :
    inBlockRange gte lt s = true ↔ gte ≤ s.blockNumber ∧ s.blockNumber < lt := by
  simp [inBlockRange]

theorem dropWhile_head_false {α : Type} (p : α → Bool) :
    ∀ (l : List α) (x : α) (t : List α), l.dropWhile p = x :: t → p x = false := by
  intro l
  induction l with
  | nil => intro x t h; simp [List.dropWhile] at h
  | cons a l' ih =>
    intro x t h
    rw [List.dropWhile_cons] at h
    by_cases ha : p a
    · rw [if_pos ha] at h; exact ih x t h
    · rw [if_neg ha] at h
      cases h
      simpa using ha

theorem findBlockToSplit_of_dropWhile (m : Nat) :
    ∀ (l : List T_Sale) (x : T_Sale) (t : List T_Sale),
      l.dropWhile (fun y => ! decide (m < y.blockNumber)) = x :: t →
      findBlockToSplit m l = .ok ((x :: t).reverse, x.blockNumber) := by
  intro l
  induction l with
  | nil => intro x t h; simp [List.dropWhile] at h
  | cons y l' ih =>
    intro x t h
    rw [List.dropWhile_cons] at h
    by_cases hy : m < y.blockNumber
    · rw [if_neg (by simp [hy])] at h
      cases h
      unfold findBlockToSplit
      rw [if_pos hy]
    · rw [if_pos (by simp [hy])] at h
      unfold findBlockToSplit
      rw [if_neg hy]
      exact ih x t h

/-- The boundary search on a sorted full page holding at least one block
number above that of its final sale: it succeeds, keeps exactly the sales
strictly above the final block, and the new exclusive upper bound is the
least block number among the kept sales. -/
theorem splitFullPage_spec (P : List T_Sale) (hPs : sortedDesc P)
    (l0 : T_Sale) (R : List T_Sale) (hrev : P.reverse = l0 :: R)
    (hex : ∃ y ∈ P, l0.blockNumber < y.blockNumber) :
    ∃ x : T_Sale, x ∈ P ∧ l0.blockNumber < x.blockNumber ∧
      splitFullPage P =
        .ok (P.filter (fun y => decide (l0.blockNumber < y.blockNumber)),
          x.blockNumber) ∧
      (∀ y ∈ P, l0.blockNumber < y.blockNumber → x.blockNumber ≤ y.blockNumber) := by
  have hRasc : (l0 :: R).Pairwise (fun a b => a.blockNumber ≤ b.blockNumber) := by
    rw [← hrev]
    exact List.pairwise_reverse.mpr hPs
  have hR2 : R.Pairwise (fun a b => a.blockNumber ≤ b.blockNumber) :=
    (List.pairwise_cons.mp hRasc).2
  have hdne : R.dropWhile (fun y => ! decide (l0.blockNumber < y.blockNumber)) ≠ [] := by
    intro hnil
    obtain ⟨y, hyP, hygt⟩ := hex
    have hyI : y ∈ l0 :: R := by rw [← hrev]; exact List.mem_reverse.mpr hyP
    rcases List.mem_cons.mp hyI with h | h
    · rw [h] at hygt; omega
    · have := List.dropWhile_eq_nil_iff.mp hnil y h
      simp at this
      omega
  obtain ⟨x, t, hxt⟩ :
      ∃ x t, R.dropWhile (fun y => ! decide (l0.blockNumber < y.blockNumber)) = x :: t := by
    rcases h : R.dropWhile (fun y => ! decide (l0.blockNumber < y.blockNumber)) with _ | ⟨a, b⟩
    · exact absurd h hdne
    · exact ⟨a, b, h⟩
  have hxR : x ∈ R := by
    have hsub : List.Sublist (x :: t) R := by
      rw [← hxt]; exact List.dropWhile_sublist _
    exact hsub.subset (List.mem_cons_self _ _)
  have hxP : x ∈ P := by
    rw [← List.mem_reverse, hrev]
    exact List.mem_cons_of_mem _ hxR
  have hxgt : l0.blockNumber < x.blockNumber := by
    have hpx := dropWhile_head_false _ R x t hxt
    simpa using hpx
  have hxtasc : (x :: t).Pairwise (fun a b => a.blockNumber ≤ b.blockNumber) :=
    hR2.sublist (by rw [← hxt]; exact List.dropWhile_sublist _)
  have hsplit : splitFullPage P = .ok ((x :: t).reverse, x.blockNumber) := by
    unfold splitFullPage
    rw [hrev]
    exact findBlockToSplit_of_dropWhile _ R x t hxt
  have h1 : R.filter (fun y => decide (l0.blockNumber < y.blockNumber)) = x :: t := by
    conv_lhs => rw [← List.takeWhile_append_dropWhile
      (fun y => ! decide (l0.blockNumber < y.blockNumber)) R]
    rw [List.filter_append, hxt]
    have htw : (R.takeWhile (fun y => ! decide (l0.blockNumber < y.blockNumber))).filter
        (fun y => decide (l0.blockNumber < y.blockNumber)) = [] := by
      rw [List.filter_eq_nil_iff]
      intro z hz
      have hmem := List.mem_takeWhile_imp hz
      simp at hmem ⊢
      omega
    have hdw : (x :: t).filter (fun y => decide (l0.blockNumber < y.blockNumber)) = x :: t := by
      rw [List.filter_eq_self]
      intro z hz
      rcases List.mem_cons.mp hz with h | h
      · rw [h]; simpa using hxgt
      · have := (List.pairwise_cons.mp hxtasc).1 z h
        simp
        omega
    rw [htw, hdw, List.nil_append]
  have hfilter : P.filter (fun y => decide (l0.blockNumber < y.blockNumber)) =
      (x :: t).reverse := by
    have h2 : P.reverse.filter (fun y => decide (l0.blockNumber < y.blockNumber)) = x :: t := by
      rw [hrev, List.filter_cons]
      rw [if_neg (by simp)]
      exact h1
    have h3 := List.filter_reverse (fun y => decide (l0.blockNumber < y.blockNumber)) P
    rw [h2] at h3
    calc P.filter (fun y => decide (l0.blockNumber < y.blockNumber))
        = (P.filter (fun y => decide (l0.blockNumber < y.blockNumber))).reverse.reverse :=
          (List.reverse_reverse _).symm
      _ = (x :: t).reverse := by rw [← h3]
  have hxmin : ∀ y ∈ P, l0.blockNumber < y.blockNumber → x.blockNumber ≤ y.blockNumber := by
    intro y hyP hygt
    have hyf : y ∈ P.filter (fun y => decide (l0.blockNumber < y.blockNumber)) :=
      List.mem_filter.mpr ⟨hyP, by simpa using hygt⟩
    rw [hfilter, List.mem_reverse] at hyf
    rcases List.mem_cons.mp hyf with h | h
    · rw [h]
    · exact (List.pairwise_cons.mp hxtasc).1 y h
  exact ⟨x, hxP, hxgt, by rw [hsplit, hfilter], hxmin⟩

/-- Splitting a half-open block range at an intermediate bound splits the
filtered portion of a descending-ordered source into the two filtered
subranges, in order. -/
theorem filter_range_split (gte mid lt : Nat) (h1 : gte ≤ mid) (h2 : mid ≤ lt) :
    ∀ l : List T_Sale, sortedDesc l →
      l.filter (inBlockRange gte lt) =
        l.filter (inBlockRange mid lt) ++ l.filter (inBlockRange gte mid) := by
  intro l
  induction l with
  | nil => intro _; rfl
  | cons x t ih =>
    intro hl
    rw [sortedDesc, List.pairwise_cons] at hl
    obtain ⟨hx, ht⟩ := hl
    have iht := ih ht
    have hnil_of_lt : x.blockNumber < mid → t.filter (inBlockRange mid lt) = [] := by
      intro hxm
      rw [List.filter_eq_nil_iff]
      intro z hz
      have := hx z hz
      simp [inBlockRange]
      omega
    rw [List.filter_cons, List.filter_cons, List.filter_cons]
    rcases Nat.lt_or_ge x.blockNumber lt with hblt | hbge
    · rcases Nat.lt_or_ge x.blockNumber mid with hbmid | hbmidge
      · -- x.blockNumber < mid ≤ lt
        rw [if_neg (show ¬ (inBlockRange mid lt x = true) by
          simp [inBlockRange]; omega)]
        by_cases hg : gte ≤ x.blockNumber
        · rw [if_pos (show inBlockRange gte lt x = true by
              simp [inBlockRange]; omega),
            if_pos (show inBlockRange gte mid x = true by
              simp [inBlockRange]; omega)]
          rw [iht, hnil_of_lt hbmid, List.nil_append, List.nil_append]
        · rw [if_neg (show ¬ (inBlockRange gte lt x = true) by
              simp [inBlockRange]; omega),
            if_neg (show ¬ (inBlockRange gte mid x = true) by
              simp [inBlockRange]; omega)]
          rw [iht, hnil_of_lt hbmid, List.nil_append]
      · -- mid ≤ x.blockNumber < lt
        rw [if_pos (show inBlockRange gte lt x = true by
            simp [inBlockRange]; omega),
          if_pos (show inBlockRange mid lt x = true by
            simp [inBlockRange]; omega),
          if_neg (show ¬ (inBlockRange gte mid x = true) by
            simp [inBlockRange]; omega)]
        rw [iht, List.cons_append]
    · -- lt ≤ x.blockNumber
      rw [if_neg (show ¬ (inBlockRange gte lt x = true) by
          simp [inBlockRange]; omega),
        if_neg (show ¬ (inBlockRange mid lt x = true) by
          simp [inBlockRange]; omega),
        if_neg (show ¬ (inBlockRange gte mid x = true) by
          simp [inBlockRange]; omega)]
      exact iht

theorem findBlockToSplit_error (m : Nat) (l : List T_Sale)
    (h : ∀ y ∈ l, y.blockNumber ≤ m) :
    findBlockToSplit m l =
      .error "TypeError: cannot read blockNumber of undefined (page exhausted while searching for a block to split)" := by
  induction l with
  | nil => rfl
  | cons y t ih =>
    unfold findBlockToSplit
    rw [if_neg (by have := h y (List.mem_cons_self _ _); omega)]
    exact ih (fun z hz => h z (List.mem_cons_of_mem _ hz))

theorem splitFullPage_uniform (page : List T_Sale) (b : Nat) (hne : page ≠ [])
    (huni : ∀ s ∈ page, s.blockNumber = b) :
    splitFullPage page =
      .error "TypeError: cannot read blockNumber of undefined (page exhausted while searching for a block to split)" := by
  unfold splitFullPage
  rcases hrev : page.reverse with _ | ⟨l0, rest⟩
  · exact absurd (List.reverse_eq_nil_iff.mp hrev) hne
  · have hl0 : l0 ∈ page := by
      rw [← List.mem_reverse, hrev]; exact List.mem_cons_self _ _
    refine findBlockToSplit_error _ _ (fun y hy => ?_)
    have hyp : y ∈ page := by
      rw [← List.mem_reverse, hrev]; exact List.mem_cons_of_mem _ hy
    rw [huni y hyp, huni l0 hl0]

/-- The main pagination loop returns exactly the filtered range when the
source is descending-ordered, no single block holds 1000 or more sales,
and the fuel exceeds the initial exclusive upper bound (every full-page
iteration strictly decreases it). -/
theorem getAllSalesLoop_ok (allSales : List T_Sale)
    (hsorted : sortedDesc allSales)
    (hcount : ∀ s ∈ allSales,
      (allSales.filter (fun u => u.blockNumber == s.blockNumber)).length < 1000)
    (gte : Nat) :
    ∀ fuel lt, lt < fuel →
      getAllSalesLoop allSales 1000 gte lt fuel =
        .ok (allSales.filter (inBlockRange gte lt)) := by
  intro fuel
  induction fuel with
  | zero => intro lt h; omega
  | succ fuel ih =>
    intro lt hlt
    rw [getAllSalesLoop_succ]
    have hFs : sortedDesc (allSales.filter (inBlockRange gte lt)) :=
      hsorted.sublist (List.filter_sublist _)
    have hpage : getSalesBetweenBlockNumbers allSales 1000 0 gte lt =
        (allSales.filter (inBlockRange gte lt)).take 1000 := by
      rw [getSalesBetweenBlockNumbers, List.drop_zero]
    rw [hpage]
    by_cases hfull : ((allSales.filter (inBlockRange gte lt)).take 1000).length < 1000
    · rw [if_pos hfull]
      rw [List.length_take] at hfull
      rw [List.take_of_length_le (by omega)]
    · rw [if_neg hfull]
      have hlen1000 : ((allSales.filter (inBlockRange gte lt)).take 1000).length = 1000 := by
        rw [List.length_take] at hfull ⊢
        omega
      have hPs : sortedDesc ((allSales.filter (inBlockRange gte lt)).take 1000) :=
        hFs.sublist (List.take_sublist _ _)
      have hPsub : List.Sublist ((allSales.filter (inBlockRange gte lt)).take 1000)
          allSales :=
        (List.take_sublist _ _).trans (List.filter_sublist _)
      have hPne : (allSales.filter (inBlockRange gte lt)).take 1000 ≠ [] :=
        List.length_pos.mp (by omega)
      obtain ⟨l0, R, hrev⟩ :
          ∃ l0 R, ((allSales.filter (inBlockRange gte lt)).take 1000).reverse = l0 :: R := by
        rcases h : ((allSales.filter (inBlockRange gte lt)).take 1000).reverse with _ | ⟨a, b⟩
        · exact absurd (List.reverse_eq_nil_iff.mp h) hPne
        · exact ⟨a, b, rfl⟩
      have hl0P : l0 ∈ (allSales.filter (inBlockRange gte lt)).take 1000 := by
        rw [← List.mem_reverse, hrev]
        exact List.mem_cons_self _ _
      have hRasc : (l0 :: R).Pairwise (fun a b => a.blockNumber ≤ b.blockNumber) := by
        rw [← hrev]
        exact List.pairwise_reverse.mpr hPs
      have hmin : ∀ y ∈ (allSales.filter (inBlockRange gte lt)).take 1000,
          l0.blockNumber ≤ y.blockNumber := by
        intro y hy
        rw [← List.mem_reverse, hrev] at hy
        rcases List.mem_cons.mp hy with h | h
        · rw [h]
        · exact (List.pairwise_cons.mp hRasc).1 y h
      have hex : ∃ y ∈ (allSales.filter (inBlockRange gte lt)).take 1000,
          l0.blockNumber < y.blockNumber := by
        by_contra hcon
        push_neg at hcon
        have hall : ∀ y ∈ (allSales.filter (inBlockRange gte lt)).take 1000,
            (fun u => u.blockNumber == l0.blockNumber) y = true := by
          intro y hy
          have h1 := hcon y hy
          have h2 := hmin y hy
          simp
          omega
        have hflt : ((allSales.filter (inBlockRange gte lt)).take 1000).filter
            (fun u => u.blockNumber == l0.blockNumber) =
            (allSales.filter (inBlockRange gte lt)).take 1000 :=
          List.filter_eq_self.mpr hall
        have hsubf : List.Sublist
            (((allSales.filter (inBlockRange gte lt)).take 1000).filter
              (fun u => u.blockNumber == l0.blockNumber))
            (allSales.filter (fun u => u.blockNumber == l0.blockNumber)) :=
          hPsub.filter _
        rw [hflt] at hsubf
        have hlele := hsubf.length_le
        have := hcount l0 (hPsub.subset hl0P)
        omega
      obtain ⟨x, hxP, hxgt, hsplit, hxmin⟩ :=
        splitFullPage_spec ((allSales.filter (inBlockRange gte lt)).take 1000) hPs l0 R
          hrev hex
      rw [hsplit]
      have hxF : x ∈ allSales.filter (inBlockRange gte lt) :=
        (List.take_sublist _ _).subset hxP
      have hxRange : gte ≤ x.blockNumber ∧ x.blockNumber < lt :=
        (inBlockRange_eq_true _ _ _).mp (List.mem_filter.mp hxF).2
      have hrec := ih x.blockNumber (by omega)
      simp only [hrec]
      have hdropLe : ∀ z ∈ (allSales.filter (inBlockRange gte lt)).drop 1000,
          z.blockNumber ≤ l0.blockNumber := by
        intro z hz
        have hFsplit : allSales.filter (inBlockRange gte lt) =
            (allSales.filter (inBlockRange gte lt)).take 1000 ++
              (allSales.filter (inBlockRange gte lt)).drop 1000 :=
          (List.take_append_drop 1000 _).symm
        have hFs2 := hFsplit ▸ hFs
        exact (List.pairwise_append.mp hFs2).2.2 l0 hl0P z hz
      have hstepA : ((allSales.filter (inBlockRange gte lt)).take 1000).filter
            (fun y => decide (l0.blockNumber < y.blockNumber)) =
          (allSales.filter (inBlockRange gte lt)).filter
            (fun y => decide (l0.blockNumber < y.blockNumber)) := by
        conv_rhs => rw [← List.take_append_drop 1000 (allSales.filter (inBlockRange gte lt))]
        rw [List.filter_append]
        have hnil : ((allSales.filter (inBlockRange gte lt)).drop 1000).filter
            (fun y => decide (l0.blockNumber < y.blockNumber)) = [] := by
          rw [List.filter_eq_nil_iff]
          intro z hz
          have := hdropLe z hz
          simp
          omega
        rw [hnil, List.append_nil]
      have hstepC : (allSales.filter (inBlockRange gte lt)).filter
            (fun y => decide (l0.blockNumber < y.blockNumber)) =
          allSales.filter (inBlockRange x.blockNumber lt) := by
        rw [List.filter_filter]
        refine List.filter_congr ?_
        intro s hs
        have hiff : (decide (l0.blockNumber < s.blockNumber) && inBlockRange gte lt s) = true ↔
            inBlockRange x.blockNumber lt s = true := by
          rw [Bool.and_eq_true, decide_eq_true_eq, inBlockRange_eq_true,
            inBlockRange_eq_true]
          constructor
          · rintro ⟨hls, hgs, hslt⟩
            refine ⟨?_, hslt⟩
            have hsF : s ∈ allSales.filter (inBlockRange gte lt) :=
              List.mem_filter.mpr ⟨hs, (inBlockRange_eq_true _ _ _).mpr ⟨hgs, hslt⟩⟩
            rw [← List.take_append_drop 1000 (allSales.filter (inBlockRange gte lt))]
              at hsF
            rcases List.mem_append.mp hsF with hsP | hsD
            · exact hxmin s hsP hls
            · have := hdropLe s hsD
              omega
          · rintro ⟨hxs, hslt⟩
            exact ⟨by omega, by omega, hslt⟩
        rcases hb1 : (decide (l0.blockNumber < s.blockNumber) && inBlockRange gte lt s) with
          _ | _ <;> rcases hb2 : inBlockRange x.blockNumber lt s with _ | _
        · rfl
        · rw [hb1, hb2] at hiff
          exact absurd (hiff.mpr rfl) (by simp)
        · rw [hb1, hb2] at hiff
          exact absurd (hiff.mp rfl) (by simp)
        · rfl
      rw [hstepA, hstepC,
        ← filter_range_split gte x.blockNumber lt hxRange.1 (le_of_lt hxRange.2)
          allSales hsorted]

/-- C1: for every half-open block range [gte, lt), under the data-source
contract (descending order by block number, fewer than 1000 sales in any
single block), getAllSalesBetweenBlockNumbers returns exactly the sales
of the source whose block number lies in the range: equal as a list to
the descending-ordered filtered source, hence each such sale exactly once
(same multiplicities), none missed, none duplicated, in descending block
order, despite the 1000-row pages with skip 0 and the moving exclusive
upper bound. -/
theorem getAllSales_exact (allSales : List T_Sale) (gte lt : Nat)
    (hsorted : sortedDesc allSales)
    (hcount : ∀ s ∈ allSales,
      (allSales.filter (fun u => u.blockNumber == s.blockNumber)).length < 1000) :
    getAllSalesBetweenBlockNumbers allSales (gte, lt) =
      .ok (allSales.filter (inBlockRange gte lt)) ∧
    sortedDesc (allSales.filter (inBlockRange gte lt)) := by
  constructor
  · show getAllSalesLoop allSales 1000 gte lt (lt + 1) = _
    exact getAllSalesLoop_ok allSales hsorted hcount gte (lt + 1) lt (by omega)
  · exact hsorted.sublist (List.filter_sublist _)

/-- C1 witness: on the concrete four-sale source, the range [6, 10)
returns exactly the three sales at blocks 9, 7, 7 in order. -/
theorem getAllSales_exact_witness :
    getAllSalesBetweenBlockNumbers exampleSourceSales (6, 10) =
      .ok (exampleSourceSales.filter (inBlockRange 6 10)) ∧
    exampleSourceSales.filter (inBlockRange 6 10) =
      [{ exampleSingleSale with id := "a", blockNumber := 9 },
       { exampleSingleSale with id := "b", blockNumber := 7 },
       { exampleSingleSale with id := "c", blockNumber := 7 }] :=
  ⟨(getAllSales_exact exampleSourceSales 6 10 (by decide) (by decide)).1, by decide⟩

/-- C8: when a fetched page of 1000 rows consists entirely of sales from
one block number, the boundary search pops the whole page without finding
a split point and then pops the already-empty page, a fatal TypeError
that aborts the run: getAllSalesBetweenBlockNumbers returns the error and
never a partial result. -/
theorem uniform_full_page_is_fatal (allSales : List T_Sale) (gte lt b : Nat)
    (hlen : (getSalesBetweenBlockNumbers allSales 1000 0 gte lt).length = 1000)
    (huni : ∀ s ∈ getSalesBetweenBlockNumbers allSales 1000 0 gte lt,
      s.blockNumber = b) :
    getAllSalesBetweenBlockNumbers allSales (gte, lt) =
      .error "TypeError: cannot read blockNumber of undefined (page exhausted while searching for a block to split)" := by
  unfold getAllSalesBetweenBlockNumbers
  show getAllSalesLoop allSales 1000 gte lt (lt + 1) = _
  rw [getAllSalesLoop_succ]
  rw [if_neg (by omega)]
  rw [splitFullPage_uniform _ b (List.length_pos.mp (by omega)) huni]

/-- C8 witness: a source holding 1000 sales of the single block 5 makes
the range query [0, 10) fatal. -/
theorem uniform_full_page_is_fatal_witness :
    getAllSalesBetweenBlockNumbers
        (List.replicate 1000 { exampleSingleSale with blockNumber := 5 }) (0, 10) =
      .error "TypeError: cannot read blockNumber of undefined (page exhausted while searching for a block to split)" := by
  have hpage : getSalesBetweenBlockNumbers
      (List.replicate 1000 { exampleSingleSale with blockNumber := 5 }) 1000 0 0 10 =
      List.replicate 1000 { exampleSingleSale with blockNumber := 5 } := by
    unfold getSalesBetweenBlockNumbers
    rw [List.filter_eq_self.mpr (fun s hs => by
      rw [List.eq_of_mem_replicate hs]; rfl)]
    rw [List.drop_zero, List.take_of_length_le (le_of_eq (List.length_replicate _ _))]
  refine uniform_full_page_is_fatal _ 0 10 5
    (by rw [hpage]; exact List.length_replicate _ _) ?_
  intro s hs
  rw [hpage] at hs
  rw [List.eq_of_mem_replicate hs]

end ABRoyalties
